import Mathlib

/-!
# Verification of the MakiNet control-plane image builder and archive codec

Shallow embedding of `makinet_controlplane/builder/config.py` and
`makinet_controlplane/builder/__init__.py`.

Modelling conventions:
* File contents are byte lists (`Bytes := List Nat`).
* A filesystem tree (source tree, staging tree, extraction target) is a
  finite map from POSIX relative path to bytes, represented as an
  association list in traversal order (`Fs`).  Directories carry no data of
  their own and `rglob` skips them, so only regular files are represented.
* Python `dict`s (`checksum`, `content`) are association lists in insertion
  order; Python dict keys are unique, matching how the builder populates them.
* Zip archives are association lists from entry name to entry payload.
  Entry names occurring in the code (`info.bson`, `content.bson`,
  `layers/`, `layers/layer_{i}.zip`) are an inductive type `EntryName`;
  the payload of an entry is the structured BSON document the code writes,
  since `bson.dumps`/`bson.loads` is a faithful serialisation the claims
  never look inside.
* `hashlib.sha256(...).hexdigest()` is an abstract pure function
  `sha256 : Bytes → String`; every theorem is universally quantified over
  it, because the claims are about how digests are routed, not about the
  SHA-256 compression function.
* Raising an exception is modelled by `Except String`; `logger` calls are
  collected into a `List String` of log messages where a claim needs them.
-/

namespace MakiNet

abbrev Bytes := List Nat

/-- A filesystem tree as a finite map relative-POSIX-path ↦ file bytes. -/
abbrev Fs := List (String × Bytes)

/-- First-match lookup in an association list (Python `dict.__getitem__` /
`zipfile.read` by name; keys are unique wherever the code builds them). -/
def alistLookup {κ ν : Type} [DecidableEq κ] : List (κ × ν) → κ → Option ν
  | [], _ => none
  | (k0, v0) :: rest, k => if k0 = k then some v0 else alistLookup rest k

/-- Write (create or overwrite) a key in an association list: models
`shutil.copy` / `write_bytes` onto a filesystem, and dict assignment. -/
def alistWrite {κ ν : Type} [DecidableEq κ] : List (κ × ν) → κ → ν → List (κ × ν)
  | [], k, v => [(k, v)]
  | (k0, v0) :: rest, k, v =>
      if k0 = k then (k, v) :: rest else (k0, v0) :: alistWrite rest k v

/-- Remove a key from an association list: models `Path.unlink(missing_ok=True)`. -/
def alistRemove {κ ν : Type} [DecidableEq κ] : List (κ × ν) → κ → List (κ × ν)
  | [], _ => []
  | (k0, v0) :: rest, k =>
      if k0 = k then alistRemove rest k else (k0, v0) :: alistRemove rest k

/-- UTF-8 encoding of one code point (what Python's text-mode `write` and
`str.encode("utf-8")` produce per character). -/
def charUtf8 (c : Char) : Bytes :=
  let n := c.toNat
  if n < 0x80 then [n]
  else if n < 0x800 then [0xC0 + n / 64, 0x80 + n % 64]
  else if n < 0x10000 then [0xE0 + n / 4096, 0x80 + n / 64 % 64, 0x80 + n % 64]
  else [0xF0 + n / 262144, 0x80 + n / 4096 % 64, 0x80 + n / 64 % 64, 0x80 + n % 64]

/-- UTF-8 encoding of a string. -/
def utf8Bytes (s : String) : Bytes :=
  s.data.flatMap charUtf8

/-- `pathlib.Path(p).is_absolute()` on POSIX: the path starts with `/`. -/
def isAbsolutePath (p : String) : Bool :=
  p.data.head? = some '/'

/-- `pathlib.Path(p).name`: the final path component. -/
def fileName (p : String) : String :=
  ⟨p.data.foldl (fun acc c => if c = '/' then [] else acc.concat c) []⟩

/-- `str.endswith(suffix)`. -/
def strEndsWith (s suffix : String) : Bool :=
  List.isPrefixOf suffix.data.reverse s.data.reverse

/-! ## Data model (`builder/config.py`) -/

/-- `ImageLayer` (pydantic model): per-file sha256 digests, embedded file
bytes, and deletion tombstones.  The derived `slug` is a computed field,
modelled by `ImageLayer.slug` below, never stored. -/
structure ImageLayer where
  checksum : List (String × String)
  content : List (String × Bytes)
  deleted_files : List String
deriving DecidableEq, Repr

/-- `ImageLayer.slug` computed field:
`sha256(" ".join(self.checksum.values()).encode("utf-8")).hexdigest()`. -/
def ImageLayer.slug (sha256 : Bytes → String) (l : ImageLayer) : String :=
  sha256 (utf8Bytes (String.intercalate " " (l.checksum.map Prod.snd)))

/-- The `validate_content` field validator: constructing an `ImageLayer`
raises `ValueError("Path must be relative")` when any `content` key is an
absolute path.  Only `content` carries a validator in the source. -/
def validateContent (content : List (String × Bytes)) : Bool :=
  content.all (fun pb => !isAbsolutePath pb.1)

/-- Pydantic construction `ImageLayer(checksum=…, content=…, deleted_files=…)`:
runs `validate_content` and either raises or yields the model instance. -/
def mkImageLayer (checksum : List (String × String)) (content : List (String × Bytes))
    (deleted_files : List String) : Except String ImageLayer :=
  if validateContent content then
    .ok ⟨checksum, content, deleted_files⟩
  else
    .error "Path must be relative"

/-- `Image` (pydantic model): named, versioned stack of layers. -/
structure Image where
  slug : String
  version : String
  layers : List ImageLayer
deriving DecidableEq, Repr

/-! ## Archive codec (`builder/config.py`) -/

/-- Zip entry names used by the codec.  `layerZip i` stands for the string
`layers/layer_{i}.zip` (the naming is injective in `i`), `layersDir` for the
directory entry `layers/` created by `zip_file.mkdir("layers")`. -/
inductive EntryName where
  | infoBson
  | contentBson
  | layersDir
  | layerZip (i : Nat)
deriving DecidableEq, Repr

/-- Payload of an entry of a layer archive: the BSON document the code
writes there.  `info` is `model_dump(mode="json", exclude={"content"})`,
i.e. `checksum`, `deleted_files` and the computed `slug`. -/
inductive LayerDoc where
  | info (checksum : List (String × String)) (deleted_files : List String) (slug : String)
  | content (c : List (String × Bytes))
deriving DecidableEq, Repr

/-- A packed layer: zip archive of named BSON documents. -/
abbrev LayerArchive := List (EntryName × LayerDoc)

/-- Payload of an entry of an image archive: `info` is
`model_dump(mode="json", exclude={"layers"})`; `dir` is the `layers/`
directory entry; `layerFile` is a nested layer zip stored verbatim. -/
inductive ImageDoc where
  | info (slug version : String)
  | dir
  | layerFile (arch : LayerArchive)
deriving DecidableEq, Repr

/-- A packed image: zip archive of named entries. -/
abbrev ImageArchive := List (EntryName × ImageDoc)

/-- `ImageLayer.pack`: writes `info.bson` then `content.bson`.  The loop
over `self.content` before `content.bson` is written only logs
`"Error when packing image: Path must be relative"` for each absolute key;
it never raises and never drops a key.  Returns (archive, log messages).
The `compression` flag selects `ZIP_STORED` vs `ZIP_DEFLATED` and does not
change the archive's logical contents. -/
def ImageLayer.pack (sha256 : Bytes → String) (compression : Bool) (l : ImageLayer) :
    LayerArchive × List String :=
  let _ := compression
  ([(EntryName.infoBson, LayerDoc.info l.checksum l.deleted_files (l.slug sha256)),
    (EntryName.contentBson, LayerDoc.content l.content)],
   l.content.filterMap (fun pb =>
     if isAbsolutePath pb.1 then some "Error when packing image: Path must be relative"
     else none))

/-- `ImageLayer.unpack`: read `info.bson` and `content.bson`, then construct
`cls(**info, content=content)`.  The stored `slug` key is ignored by the
constructor (pydantic default `extra="ignore"`; `slug` is computed), and the
`validate_content` validator runs again. -/
def ImageLayer.unpack (arch : LayerArchive) : Except String ImageLayer :=
  match alistLookup arch EntryName.infoBson with
  | some (LayerDoc.info checksum deleted_files _storedSlug) =>
      match alistLookup arch EntryName.contentBson with
      | some (LayerDoc.content content) => mkImageLayer checksum content deleted_files
      | _ => .error "KeyError: content.bson"
  | _ => .error "KeyError: info.bson"

/-- The `for i, layer in enumerate(self.layers)` loop of `Image.pack`:
entry `layers/layer_{i}.zip` holds layer `i`'s packed archive. -/
def layerEntries (sha256 : Bytes → String) (compression : Bool) :
    Nat → List ImageLayer → ImageArchive
  | _, [] => []
  | i, l :: ls =>
      (EntryName.layerZip i, ImageDoc.layerFile (ImageLayer.pack sha256 compression l).1) ::
        layerEntries sha256 compression (i + 1) ls

/-- `Image.pack`: writes `info.bson`, the `layers/` directory entry, then one
nested layer archive per layer at `layers/layer_{i}.zip` in layer order.
Log messages of the nested layer packs are collected in order. -/
def Image.pack (sha256 : Bytes → String) (compression : Bool) (img : Image) :
    ImageArchive × List String :=
  ((EntryName.infoBson, ImageDoc.info img.slug img.version) ::
     (EntryName.layersDir, ImageDoc.dir) ::
     layerEntries sha256 compression 0 img.layers,
   img.layers.flatMap (fun l => (ImageLayer.pack sha256 compression l).2))

/-- The layer-probing loop of `Image.unpack`:
`for i in range(len(zip_file.namelist())): if f"layers/layer_{i}.zip" not in
zip_file.namelist(): continue` — a missing index is skipped (`continue`),
a present index is extracted and unpacked, errors propagating. -/
def Image.unpackLayers (arch : ImageArchive) : List Nat → Except String (List ImageLayer)
  | [] => .ok []
  | i :: rest =>
      if EntryName.layerZip i ∈ arch.map Prod.fst then
        match alistLookup arch (EntryName.layerZip i) with
        | some (ImageDoc.layerFile la) =>
            match ImageLayer.unpack la with
            | .ok l => (Image.unpackLayers arch rest).map (fun ls => l :: ls)
            | .error e => .error e
        | _ => .error "BadZipFile"
      else
        Image.unpackLayers arch rest

/-- `Image.unpack`: read `info.bson`, then probe indices
`0, …, len(namelist()) - 1` for `layers/layer_{i}.zip`. -/
def Image.unpack (arch : ImageArchive) : Except String Image :=
  match alistLookup arch EntryName.infoBson with
  | some (ImageDoc.info slug version) =>
      (Image.unpackLayers arch (List.range arch.length)).map
        (fun ls => { slug := slug, version := version, layers := ls })
  | _ => .error "KeyError: info.bson"

/-! ## Extractor and reporting (`builder/config.py`) -/

/-- Write every `(path, bytes)` of a layer's `content` in order. -/
def writeAll (fs : Fs) (content : List (String × Bytes)) : Fs :=
  content.foldl (fun acc pb => alistWrite acc pb.1 pb.2) fs

/-- Unlink every tombstone in order (`missing_ok=True`). -/
def removeAll (fs : Fs) (paths : List String) : Fs :=
  paths.foldl (fun acc p => alistRemove acc p) fs

/-- `Image.extract_to_directory`: for each layer in order, write its
`content` (overwriting), then unlink its `deleted_files`.  The destination
directory state is an `Fs`. -/
def Image.extract_to_directory (img : Image) (dest : Fs) : Fs :=
  img.layers.foldl
    (fun fs layer => removeAll (writeAll fs layer.content) layer.deleted_files) dest

/-- `Image.get_file_list`: `list(self.layers[-1].checksum.keys())`;
`layers[-1]` raises `IndexError` on an empty list. -/
def Image.get_file_list (img : Image) : Except String (List String) :=
  match img.layers.getLast? with
  | some l => .ok (l.checksum.map Prod.fst)
  | none => .error "IndexError: list index out of range"

/-- `Image.__repr__`: formats slug, version, layer count and
`self.get_file_list()[0:3]`; fails whenever `get_file_list` does. -/
def Image.reprStr (img : Image) : Except String String :=
  (img.get_file_list).map (fun files =>
    "Image(\n    slug=" ++ img.slug ++ ",\n    version=" ++ img.version ++
      ",\n    layers=" ++ toString img.layers.length ++
      ",\n    files=" ++ toString (files.take 3) ++ "...\n)")

/-! ## Build pipeline (`builder/__init__.py`) -/

/-- `CopyStep`: `dest` is part of the schema but not consumed by execution. -/
structure CopyStep where
  src : String
  dest : String
deriving DecidableEq, Repr

/-- `SetEnvStep`. -/
structure SetEnvStep where
  name : String
  value : String
deriving DecidableEq, Repr

/-- The tagged `BuildSteps` union. -/
inductive BuildStep where
  | copy (s : CopyStep)
  | setenv (s : SetEnvStep)
deriving DecidableEq, Repr

/-- `BuildConfig` after successful TOML parsing/validation. -/
structure BuildConfig where
  image_slug : String
  version : String
  steps : List BuildStep
deriving DecidableEq, Repr

/-- `evaluate_build_step`, parametrised by the glob matcher
`globMatch pattern relpath` that abstracts `Path.rglob(step.src)`:
* `CopyStep`: for each matched regular file (directories carry no entry in
  `Fs`), skip it when its name ends with `.image.zip`, otherwise copy it to
  the same relative path in the staging tree (`step.dest` is unused);
* `SetEnvStep`: `touch` `.image.env`, then append `"\n{name}={value}"`. -/
def evaluate_build_step (globMatch : String → String → Bool) (step : BuildStep)
    (source staging : Fs) : Fs :=
  match step with
  | .copy s =>
      (source.filter (fun pb => globMatch s.src pb.1)).foldl
        (fun st pb =>
          if strEndsWith (fileName pb.1) ".image.zip" then st
          else alistWrite st pb.1 pb.2)
        staging
  | .setenv s =>
      let old := (alistLookup staging ".image.env").getD []
      alistWrite staging ".image.env" (old ++ utf8Bytes ("\n" ++ s.name ++ "=" ++ s.value))

/-- `generate_image_layer`: walk the staging tree; for every regular file,
record its bytes in `content` and the digest of those same bytes in
`checksum` under the same relative POSIX path; then construct the
`ImageLayer` (running its validator).  `deleted_files` defaults to `[]`. -/
def generate_image_layer (sha256 : Bytes → String) (staging : Fs) :
    Except String ImageLayer :=
  mkImageLayer (staging.map (fun pb => (pb.1, sha256 pb.2))) staging []

/-- `build_image_from_directory` after config parsing: run every step, in
order, against the (initially empty) staging tree, then append the single
generated layer. -/
def build_image_from_directory (globMatch : String → String → Bool)
    (sha256 : Bytes → String) (config : BuildConfig) (source : Fs) :
    Except String Image :=
  let staging := config.steps.foldl
    (fun st step => evaluate_build_step globMatch step source st) []
  (generate_image_layer sha256 staging).map
    (fun layer => { slug := config.image_slug, version := config.version, layers := [layer] })

/-! ## Association-list and filesystem lemmas -/

theorem alistLookup_write_self {κ ν : Type} [DecidableEq κ]
    (l : List (κ × ν)) (k : κ) (v : ν) :
    alistLookup (alistWrite l k v) k = some v := by
  induction l with
  | nil => simp [alistWrite, alistLookup]
  | cons hd tl ih =>
      obtain ⟨k0, v0⟩ := hd
      by_cases h : k0 = k <;> simp [alistWrite, alistLookup, h, ih]

theorem alistLookup_write_ne {κ ν : Type} [DecidableEq κ]
    (l : List (κ × ν)) (k k' : κ) (v : ν) (h : k' ≠ k) :
    alistLookup (alistWrite l k v) k' = alistLookup l k' := by
  induction l with
  | nil => simp [alistWrite, alistLookup, Ne.symm h]
  | cons hd tl ih =>
      obtain ⟨k0, v0⟩ := hd
      by_cases h0 : k0 = k
      · subst h0
        simp [alistWrite, alistLookup, h, Ne.symm h]
      · by_cases h1 : k0 = k' <;>
          simp [alistWrite, alistLookup, h, Ne.symm h, h0, h1, ih]

theorem alistLookup_remove_ne {κ ν : Type} [DecidableEq κ]
    (l : List (κ × ν)) (k k' : κ) (h : k' ≠ k) :
    alistLookup (alistRemove l k) k' = alistLookup l k' := by
  induction l with
  | nil => simp [alistRemove]
  | cons hd tl ih =>
      obtain ⟨k0, v0⟩ := hd
      by_cases h0 : k0 = k
      · subst h0
        simp [alistRemove, alistLookup, h, Ne.symm h, ih]
      · by_cases h1 : k0 = k' <;>
          simp [alistRemove, alistLookup, h, Ne.symm h, h0, h1, ih]

theorem alistLookup_isSome_iff_mem {κ ν : Type} [DecidableEq κ]
    (l : List (κ × ν)) (k : κ) :
    (alistLookup l k).isSome = true ↔ k ∈ l.map Prod.fst := by
  induction l with
  | nil => simp [alistLookup]
  | cons hd tl ih =>
      obtain ⟨k0, v0⟩ := hd
      by_cases h : k0 = k
      · simp [alistLookup, h]
      · simp [alistLookup, h, Ne.symm h, ih]

theorem alistLookup_eq_none_of_not_mem {κ ν : Type} [DecidableEq κ]
    (l : List (κ × ν)) (k : κ) (h : k ∉ l.map Prod.fst) :
    alistLookup l k = none := by
  have := (alistLookup_isSome_iff_mem l k).not.mpr h
  cases e : alistLookup l k with
  | none => rfl
  | some v => exact absurd (by simp [e]) this

theorem alistLookup_writeAll_not_mem (fs : Fs) (content : List (String × Bytes))
    (p : String) (h : p ∉ content.map Prod.fst) :
    alistLookup (writeAll fs content) p = alistLookup fs p := by
  induction content generalizing fs with
  | nil => rfl
  | cons hd tl ih =>
      simp only [List.map_cons, List.mem_cons] at h
      push_neg at h
      calc alistLookup (writeAll (alistWrite fs hd.1 hd.2) tl) p
          = alistLookup (alistWrite fs hd.1 hd.2) p := ih _ h.2
        _ = alistLookup fs p := alistLookup_write_ne _ _ _ _ h.1

theorem alistLookup_writeAll_found (fs : Fs) (content : List (String × Bytes))
    (p : String) (b : Bytes) (hnd : (content.map Prod.fst).Nodup)
    (h : alistLookup content p = some b) :
    alistLookup (writeAll fs content) p = some b := by
  induction content generalizing fs with
  | nil => simp [alistLookup] at h
  | cons hd tl ih =>
      obtain ⟨q, c⟩ := hd
      simp only [List.map_cons, List.nodup_cons] at hnd
      by_cases hq : q = p
      · subst hq
        simp [alistLookup] at h
        subst h
        show alistLookup (writeAll (alistWrite fs q c) tl) q = some c
        rw [alistLookup_writeAll_not_mem _ _ _ (by simpa using hnd.1),
          alistLookup_write_self]
      · simp only [alistLookup, if_neg hq] at h
        exact ih _ hnd.2 h

theorem alistLookup_removeAll_not_mem (fs : Fs) (paths : List String)
    (p : String) (h : p ∉ paths) :
    alistLookup (removeAll fs paths) p = alistLookup fs p := by
  induction paths generalizing fs with
  | nil => rfl
  | cons hd tl ih =>
      simp only [List.mem_cons] at h
      push_neg at h
      calc alistLookup (removeAll (alistRemove fs hd) tl) p
          = alistLookup (alistRemove fs hd) p := ih _ h.2
        _ = alistLookup fs p := alistLookup_remove_ne _ _ _ h.1

theorem alistLookup_map_digest (sha256 : Bytes → String) :
    ∀ (fs : Fs) (p : String) (b : Bytes), alistLookup fs p = some b →
      alistLookup (fs.map (fun pb => (pb.1, sha256 pb.2))) p = some (sha256 b)
  | (q, c) :: rest, p, b, h => by
      by_cases hq : q = p
      · subst hq
        simp [alistLookup] at h
        subst h
        simp [alistLookup]
      · simp only [alistLookup, if_neg hq] at h
        simpa [alistLookup, hq] using alistLookup_map_digest sha256 rest p b h

theorem getLast?_append_single {α : Type} (l : List α) (a : α) :
    (l ++ [a]).getLast? = some a := by
  induction l with
  | nil => rfl
  | cons hd tl ih =>
      cases tl with
      | nil => rfl
      | cons b tl' => simp [List.getLast?]

theorem mkImageLayer_ok (ck : List (String × String)) (c : List (String × Bytes))
    (df : List String) (l : ImageLayer) (h : mkImageLayer ck c df = .ok l) :
    l = ⟨ck, c, df⟩ ∧ validateContent c = true := by
  unfold mkImageLayer at h
  split_ifs at h with hv
  · injection h with h
    exact ⟨h.symm, hv⟩

theorem generate_ok_inv (sha256 : Bytes → String) (staging : Fs) (layer : ImageLayer)
    (h : generate_image_layer sha256 staging = .ok layer) :
    layer = ⟨staging.map (fun pb => (pb.1, sha256 pb.2)), staging, []⟩ ∧
    validateContent staging = true :=
  mkImageLayer_ok _ _ _ _ h

theorem build_ok_inv (globMatch : String → String → Bool) (sha256 : Bytes → String)
    (config : BuildConfig) (source : Fs) (img : Image)
    (h : build_image_from_directory globMatch sha256 config source = .ok img) :
    ∃ layer, generate_image_layer sha256
        (config.steps.foldl (fun st step => evaluate_build_step globMatch step source st) [])
        = .ok layer ∧
      img = ⟨config.image_slug, config.version, [layer]⟩ := by
  simp only [build_image_from_directory] at h
  cases e : generate_image_layer sha256
      (config.steps.foldl (fun st step => evaluate_build_step globMatch step source st) []) with
  | ok layer =>
      rw [e] at h
      simp only [Except.map] at h
      injection h with h
      exact ⟨layer, rfl, h.symm⟩
  | error err =>
      rw [e] at h
      simp only [Except.map] at h
      cases h

/-- The `CopyStep` loop of `evaluate_build_step` never creates a path whose
file name ends in `.image.zip`. -/
theorem copy_fold_preserves_none (p : String)
    (hp : strEndsWith (fileName p) ".image.zip" = true) :
    ∀ (files : List (String × Bytes)) (st : Fs), alistLookup st p = none →
      alistLookup (files.foldl (fun st pb =>
          if strEndsWith (fileName pb.1) ".image.zip" then st
          else alistWrite st pb.1 pb.2) st) p = none
  | [], _, h => h
  | pb :: rest, st, h => by
      by_cases hskip : strEndsWith (fileName pb.1) ".image.zip" = true
      · simpa [hskip] using copy_fold_preserves_none p hp rest st h
      · have hne : p ≠ pb.1 := by
          intro e
          rw [e] at hp
          exact hskip hp
        have : alistLookup (alistWrite st pb.1 pb.2) p = none := by
          rw [alistLookup_write_ne _ _ _ _ hne]
          exact h
        simpa [hskip] using copy_fold_preserves_none p hp rest _ this

/-- No build step ever creates a path whose file name ends in
`.image.zip`: `CopyStep` skips such files and `SetEnvStep` only writes
`.image.env`. -/
theorem step_preserves_no_image_zip (globMatch : String → String → Bool)
    (step : BuildStep) (source st : Fs) (p : String)
    (hp : strEndsWith (fileName p) ".image.zip" = true)
    (h : alistLookup st p = none) :
    alistLookup (evaluate_build_step globMatch step source st) p = none := by
  cases step with
  | copy s =>
      exact copy_fold_preserves_none p hp
        (source.filter (fun pb => globMatch s.src pb.1)) st h
  | setenv s =>
      have hne : p ≠ ".image.env" := by
        intro e
        rw [e] at hp
        exact absurd hp (by decide)
      show alistLookup (alistWrite st ".image.env" _) p = none
      rw [alistLookup_write_ne _ _ _ _ hne]
      exact h

theorem steps_fold_preserves_none (globMatch : String → String → Bool)
    (source : Fs) (p : String)
    (hp : strEndsWith (fileName p) ".image.zip" = true) :
    ∀ (steps : List BuildStep) (st : Fs), alistLookup st p = none →
      alistLookup (steps.foldl
        (fun st step => evaluate_build_step globMatch step source st) st) p = none
  | [], _, h => h
  | step :: rest, st, h =>
      steps_fold_preserves_none globMatch source p hp rest _
        (step_preserves_no_image_zip globMatch step source st p hp h)

/-- A layer archive produced by `ImageLayer.pack` unpacks to the original
layer, provided the layer's `content` passes the (re-run) validator. -/
theorem imageLayer_unpack_pack (sha256 : Bytes → String) (compression : Bool)
    (l : ImageLayer) (hv : validateContent l.content = true) :
    ImageLayer.unpack (ImageLayer.pack sha256 compression l).1 = .ok l := by
  show mkImageLayer l.checksum l.content l.deleted_files = .ok l
  unfold mkImageLayer
  rw [if_pos hv]

theorem layerEntries_length (sha256 : Bytes → String) (compression : Bool) :
    ∀ (s : Nat) (ls : List ImageLayer),
      (layerEntries sha256 compression s ls).length = ls.length
  | _, [] => rfl
  | s, _ :: ls => by
      simpa [layerEntries] using layerEntries_length sha256 compression (s + 1) ls

theorem alistLookup_layerEntries_lt (sha256 : Bytes → String) (compression : Bool) :
    ∀ (ls : List ImageLayer) (s i : Nat), i < s →
      alistLookup (layerEntries sha256 compression s ls) (EntryName.layerZip i) = none
  | [], _, _, _ => rfl
  | l :: ls, s, i, h => by
      have hne : s ≠ i := by omega
      simpa [layerEntries, alistLookup, hne] using
        alistLookup_layerEntries_lt sha256 compression ls (s + 1) i (by omega)

theorem alistLookup_layerEntries_ge (sha256 : Bytes → String) (compression : Bool) :
    ∀ (ls : List ImageLayer) (s i : Nat), s ≤ i →
      alistLookup (layerEntries sha256 compression s ls) (EntryName.layerZip i) =
        (ls[i - s]?).map
          (fun l => ImageDoc.layerFile (ImageLayer.pack sha256 compression l).1)
  | [], s, i, _ => by simp [layerEntries, alistLookup]
  | l :: ls, s, i, h => by
      by_cases he : s = i
      · subst he
        simp [layerEntries, alistLookup]
      · have hlt : s < i := by omega
        obtain ⟨d, rfl⟩ : ∃ d, i = s + d + 1 := ⟨i - s - 1, by omega⟩
        have e1 : s + d + 1 - s = d + 1 := by omega
        have e2 : s + d + 1 - (s + 1) = d := by omega
        have ih := alistLookup_layerEntries_ge sha256 compression ls (s + 1)
          (s + d + 1) (by omega)
        rw [e2] at ih
        simp [layerEntries, alistLookup, he, e1, ih, List.getElem?_cons_succ]

/-- The probing loop of `Image.unpack` collects exactly the layers whose
index is both probed and present, in index order. -/
theorem unpackLayers_spec (sha256 : Bytes → String) (compression : Bool)
    (arch : ImageArchive) (ls : List ImageLayer)
    (H1 : ∀ i, alistLookup arch (EntryName.layerZip i) =
        (ls[i]?).map
          (fun l => ImageDoc.layerFile (ImageLayer.pack sha256 compression l).1))
    (H2 : ∀ l ∈ ls, ImageLayer.unpack (ImageLayer.pack sha256 compression l).1 = .ok l) :
    ∀ indices : List Nat,
      Image.unpackLayers arch indices = .ok (indices.filterMap (fun i => ls[i]?))
  | [] => rfl
  | i :: rest => by
      have ihrest := unpackLayers_spec sha256 compression arch ls H1 H2 rest
      unfold Image.unpackLayers
      cases e : ls[i]? with
      | none =>
          have hnone : alistLookup arch (EntryName.layerZip i) = none := by
            rw [H1 i, e]; rfl
          have hmem : EntryName.layerZip i ∉ arch.map Prod.fst := by
            intro hm
            have := (alistLookup_isSome_iff_mem arch _).mpr hm
            rw [hnone] at this
            cases this
          rw [if_neg hmem, ihrest, List.filterMap_cons]
          rw [e]
      | some l =>
          have hsome : alistLookup arch (EntryName.layerZip i) =
              some (ImageDoc.layerFile (ImageLayer.pack sha256 compression l).1) := by
            rw [H1 i, e]; rfl
          have hmem : EntryName.layerZip i ∈ arch.map Prod.fst := by
            rw [← alistLookup_isSome_iff_mem, hsome]; rfl
          have hlmem : l ∈ ls := by
            obtain ⟨hlt, rfl⟩ := List.getElem?_eq_some.mp e
            exact List.getElem_mem hlt
          rw [if_pos hmem, hsome]
          simp only [H2 l hlmem, ihrest, List.filterMap_cons, e, Except.map]

theorem filterMap_getElem_range' {α : Type} :
    ∀ (n s : Nat) (ls : List α), ls.length ≤ s + n →
      (List.range' s n).filterMap (fun i => ls[i]?) = ls.drop s
  | 0, s, ls, h => by
      simp [List.drop_eq_nil_of_le (by omega : ls.length ≤ s)]
  | n + 1, s, ls, h => by
      have hstep : List.range' s (n + 1) = s :: List.range' (s + 1) n := rfl
      rw [hstep, List.filterMap_cons]
      cases e : ls[s]? with
      | none =>
          have hge : ls.length ≤ s := by
            by_contra hc
            push_neg at hc
            rw [(List.getElem?_eq_some).mpr ⟨hc, rfl⟩] at e
            cases e
          rw [filterMap_getElem_range' n (s + 1) ls (by omega),
            List.drop_eq_nil_of_le hge, List.drop_eq_nil_of_le (by omega)]
      | some a =>
          obtain ⟨hlt, rfl⟩ := List.getElem?_eq_some.mp e
          rw [filterMap_getElem_range' n (s + 1) ls (by omega),
            List.drop_eq_getElem_cons hlt]

/-- An image archive produced by `Image.pack` unpacks to the original image,
provided every layer's `content` passes the re-run validator. -/
theorem image_unpack_pack (sha256 : Bytes → String) (compression : Bool)
    (img : Image) (hv : ∀ l ∈ img.layers, validateContent l.content = true) :
    Image.unpack (Image.pack sha256 compression img).1 = .ok img := by
  have step : Image.unpack (Image.pack sha256 compression img).1 =
      (Image.unpackLayers (Image.pack sha256 compression img).1
        (List.range (Image.pack sha256 compression img).1.length)).map
        (fun ls => { slug := img.slug, version := img.version, layers := ls }) := rfl
  rw [step]
  have H1 : ∀ i, alistLookup (Image.pack sha256 compression img).1
      (EntryName.layerZip i) =
      (img.layers[i]?).map
        (fun l => ImageDoc.layerFile (ImageLayer.pack sha256 compression l).1) := by
    intro i
    show alistLookup ((EntryName.infoBson, _) :: (EntryName.layersDir, _) ::
      layerEntries sha256 compression 0 img.layers) (EntryName.layerZip i) = _
    simp only [alistLookup, reduceCtorEq, if_false]
    have := alistLookup_layerEntries_ge sha256 compression img.layers 0 i
      (Nat.zero_le i)
    simpa using this
  have H2 : ∀ l ∈ img.layers,
      ImageLayer.unpack (ImageLayer.pack sha256 compression l).1 = .ok l :=
    fun l hl => imageLayer_unpack_pack sha256 compression l (hv l hl)
  rw [unpackLayers_spec sha256 compression _ img.layers H1 H2]
  have hlen : img.layers.length ≤ (Image.pack sha256 compression img).1.length := by
    show img.layers.length ≤ ((EntryName.infoBson, _) :: (EntryName.layersDir, _) ::
      layerEntries sha256 compression 0 img.layers).length
    simp [layerEntries_length]
    omega
  rw [List.range_eq_range', filterMap_getElem_range' _ 0 img.layers (by omega)]
  rfl

/-- One `SetEnvStep` appends exactly `"\n{name}={value}"` to `.image.env`,
creating the file when absent. -/
theorem setenv_step_env (globMatch : String → String → Bool)
    (source staging : Fs) (n v : String) :
    alistLookup (evaluate_build_step globMatch (.setenv ⟨n, v⟩) source staging)
        ".image.env" =
      some ((alistLookup staging ".image.env").getD [] ++
        utf8Bytes ("\n" ++ n ++ "=" ++ v)) :=
  alistLookup_write_self ..

/-- A `SetEnvStep` touches no path other than `.image.env`. -/
theorem setenv_step_other (globMatch : String → String → Bool)
    (source staging : Fs) (n v : String) (q : String) (hq : q ≠ ".image.env") :
    alistLookup (evaluate_build_step globMatch (.setenv ⟨n, v⟩) source staging) q =
      alistLookup staging q :=
  alistLookup_write_ne _ _ _ _ hq

/-! ## Claims -/

/-- C6: a regular file whose name ends in `.image.zip` is never copied into
the staging tree, and therefore never appears as a key of any built layer's
`content` or `checksum`, regardless of the glob matcher and steps. -/
theorem copy_step_excludes_image_zip (globMatch : String → String → Bool)
    (sha256 : Bytes → String) (config : BuildConfig) (source : Fs)
    (p : String) (img : Image)
    (hp : strEndsWith (fileName p) ".image.zip" = true)
    (hb : build_image_from_directory globMatch sha256 config source = .ok img) :
    ∀ l ∈ img.layers, p ∉ l.content.map Prod.fst ∧ p ∉ l.checksum.map Prod.fst := by
  obtain ⟨layer, hgen, himg⟩ := build_ok_inv globMatch sha256 config source img hb
  obtain ⟨hlayer, -⟩ := generate_ok_inv sha256 _ layer hgen
  subst himg
  intro l hl
  simp only [Image.layers, List.mem_singleton] at hl
  subst hl
  subst hlayer
  have hnone : alistLookup
      (config.steps.foldl (fun st step => evaluate_build_step globMatch step source st) ([] : Fs))
      p = none :=
    steps_fold_preserves_none globMatch source p hp config.steps [] rfl
  have hmem : p ∉ (config.steps.foldl
      (fun st step => evaluate_build_step globMatch step source st) ([] : Fs)).map Prod.fst := by
    intro hm
    have := (alistLookup_isSome_iff_mem _ p).mpr hm
    rw [hnone] at this
    cases this
  exact ⟨hmem, by simpa using hmem⟩

/-- Witness for C6: a source tree containing `foo.image.zip` and `a.txt`, a
copy step whose matcher matches everything — the built layer contains only
`a.txt`. -/
theorem copy_step_excludes_image_zip_witness :
    "foo.image.zip" ∉
      (ImageLayer.content ⟨[("a.txt", "h")], [("a.txt", [104])], []⟩).map Prod.fst :=
  ((copy_step_excludes_image_zip (fun _ _ => true) (fun _ => "h")
      ⟨"demo", "1", [BuildStep.copy ⟨"*", "ignored"⟩]⟩
      [("foo.image.zip", [1]), ("a.txt", [104])] "foo.image.zip"
      ⟨"demo", "1", [⟨[("a.txt", "h")], [("a.txt", [104])], []⟩]⟩
      (by decide) rfl)
    ⟨[("a.txt", "h")], [("a.txt", [104])], []⟩ (by simp)).1

/-- C7: extraction applies layers in order with last-write-wins: when the
second of two layers writes `y` at `p` (and does not tombstone `p`), the
extracted tree holds `y` at `p`, whatever the first layer wrote. -/
theorem extract_last_layer_wins
    (dest : Fs) (s v : String) (l1 l2 : ImageLayer) (p : String) (y : Bytes)
    (hy : alistLookup l2.content p = some y)
    (hnd : (l2.content.map Prod.fst).Nodup)
    (hdel : p ∉ l2.deleted_files) :
    alistLookup (Image.extract_to_directory ⟨s, v, [l1, l2]⟩ dest) p = some y := by
  show alistLookup
      (removeAll (writeAll (removeAll (writeAll dest l1.content) l1.deleted_files)
        l2.content) l2.deleted_files) p = some y
  rw [alistLookup_removeAll_not_mem _ _ _ hdel]
  exact alistLookup_writeAll_found _ _ _ _ hnd hy

/-- C8: executing a nonempty sequence of `SetEnv` steps appends exactly the
lines `"\n{name}={value}"` to `.image.env` (created when absent) in
declaration order, with no deduplication for repeated names, and touches no
other path. -/
theorem setenv_appends_env_lines (globMatch : String → String → Bool)
    (source staging : Fs) (nv0 : String × String) (nvs : List (String × String)) :
    alistLookup ((nv0 :: nvs).foldl
        (fun st nv => evaluate_build_step globMatch (.setenv ⟨nv.1, nv.2⟩) source st)
        staging) ".image.env" =
      some ((alistLookup staging ".image.env").getD [] ++
        ((nv0 :: nvs).map
          (fun nv => utf8Bytes ("\n" ++ nv.1 ++ "=" ++ nv.2))).flatten) ∧
    ∀ q, q ≠ ".image.env" →
      alistLookup ((nv0 :: nvs).foldl
          (fun st nv => evaluate_build_step globMatch (.setenv ⟨nv.1, nv.2⟩) source st)
          staging) q =
        alistLookup staging q := by
  induction nvs generalizing nv0 staging with
  | nil =>
      refine ⟨?_, ?_⟩
      · simpa using setenv_step_env globMatch source staging nv0.1 nv0.2
      · intro q hq
        simpa using setenv_step_other globMatch source staging nv0.1 nv0.2 q hq
  | cons nv1 rest ih =>
      obtain ⟨ih1, ih2⟩ :=
        ih (evaluate_build_step globMatch (.setenv ⟨nv0.1, nv0.2⟩) source staging) nv1
      refine ⟨?_, ?_⟩
      · simp only [List.foldl_cons] at ih1 ⊢
        rw [ih1, setenv_step_env]
        simp [List.append_assoc]
      · intro q hq
        simp only [List.foldl_cons] at ih2 ⊢
        rw [ih2 q hq, setenv_step_other globMatch source staging nv0.1 nv0.2 q hq]

/-- Witness for C8: two `SetEnv` steps with the same name accumulate both
lines, in order, starting from an empty staging tree. -/
theorem setenv_appends_env_lines_witness :
    alistLookup ([("FOO", "bar"), ("FOO", "baz")].foldl
        (fun st nv => evaluate_build_step (fun _ _ => true)
          (.setenv ⟨nv.1, nv.2⟩) [] st) [])
      ".image.env" = some (utf8Bytes "\nFOO=bar" ++ utf8Bytes "\nFOO=baz") :=
  (setenv_appends_env_lines (fun _ _ => true) [] [] ("FOO", "bar")
      [("FOO", "baz")]).1

/-- Witness for C7: layer 1 writes `a.txt = "x"`, layer 2 writes
`a.txt = "y"`; extraction yields the bytes of `"y"`. -/
theorem extract_last_layer_wins_witness :
    alistLookup
      (Image.extract_to_directory
        ⟨"s", "v",
          [⟨[("a.txt", "hx")], [("a.txt", [120])], []⟩,
           ⟨[("a.txt", "hy")], [("a.txt", [121])], []⟩]⟩ [])
      "a.txt" = some [121] :=
  extract_last_layer_wins [] "s" "v"
    ⟨[("a.txt", "hx")], [("a.txt", [120])], []⟩
    ⟨[("a.txt", "hy")], [("a.txt", [121])], []⟩
    "a.txt" [121] rfl (by decide) (by decide)

/-- C2: for every staging tree, the `ImageLayer` returned by
`generate_image_layer` has identical key sets for `content` and `checksum`,
and `checksum[path]` is the digest of `content[path]` for every path in
`content`. -/
theorem generate_image_layer_checksum_integrity
    (sha256 : Bytes → String) (staging : Fs) (layer : ImageLayer)
    (h : generate_image_layer sha256 staging = .ok layer) :
    layer.checksum.map Prod.fst = layer.content.map Prod.fst ∧
    ∀ p b, alistLookup layer.content p = some b →
      alistLookup layer.checksum p = some (sha256 b) := by
  unfold generate_image_layer mkImageLayer at h
  split at h
  · injection h with h
    subst h
    refine ⟨by simp, ?_⟩
    intro p b hb
    exact alistLookup_map_digest sha256 staging p b hb
  · cases h

/-- Witness for C2 at a concrete staging tree. -/
theorem generate_image_layer_checksum_integrity_witness :
    alistLookup
      (ImageLayer.checksum ⟨[("a.txt", "h")], [("a.txt", [104])], []⟩) "a.txt" =
      some "h" :=
  (generate_image_layer_checksum_integrity (fun _ => "h") [("a.txt", [104])]
      ⟨[("a.txt", "h")], [("a.txt", [104])], []⟩ rfl).2 "a.txt" [104] rfl

/-- C3 counterexample: constructing an `ImageLayer` whose `checksum` mapping
has an absolute-path key succeeds (only `content` is validated), so the claim
that such a construction fails is false. -/
theorem imageLayer_absolute_checksum_key_accepted :
    mkImageLayer [("/etc/passwd", "deadbeef")] [] [] =
      .ok ⟨[("/etc/passwd", "deadbeef")], [], []⟩ ∧
    isAbsolutePath "/etc/passwd" = true :=
  ⟨rfl, by decide⟩

/-- C3 (amended): constructing an `ImageLayer` whose `content` mapping
contains any absolute-path key fails with the validation error
`"Path must be relative"`; the `checksum` mapping is not validated. -/
theorem mk_imageLayer_rejects_absolute_content_key
    (checksum : List (String × String)) (content : List (String × Bytes))
    (deleted_files : List String) (p : String) (b : Bytes)
    (hmem : (p, b) ∈ content) (habs : isAbsolutePath p = true) :
    mkImageLayer checksum content deleted_files = .error "Path must be relative" := by
  unfold mkImageLayer
  have hv : validateContent content = false := by
    unfold validateContent
    rw [List.all_eq_false]
    exact ⟨(p, b), hmem, by simp [habs]⟩
  simp [hv]

/-- Witness for the amended C3 at a concrete layer. -/
theorem mk_imageLayer_rejects_absolute_content_key_witness :
    mkImageLayer [] [("/a", [1])] [] = .error "Path must be relative" :=
  mk_imageLayer_rejects_absolute_content_key [] [("/a", [1])] [] "/a" [1]
    (by decide) (by decide)

/-- C5: for any `ImageLayer` value with an absolute-path key in `content`,
`ImageLayer.pack` still completes, writing both the `info` entry and the
`content` entry (the offending key included) — the violation is only
logged. -/
theorem imageLayer_pack_absolute_key_nonfatal
    (sha256 : Bytes → String) (compression : Bool) (l : ImageLayer)
    (p : String) (b : Bytes) (hmem : (p, b) ∈ l.content)
    (habs : isAbsolutePath p = true) :
    (ImageLayer.pack sha256 compression l).1 =
      [(EntryName.infoBson, LayerDoc.info l.checksum l.deleted_files (l.slug sha256)),
       (EntryName.contentBson, LayerDoc.content l.content)] ∧
    (p, b) ∈ l.content ∧
    "Error when packing image: Path must be relative" ∈
      (ImageLayer.pack sha256 compression l).2 := by
  refine ⟨rfl, hmem, ?_⟩
  unfold ImageLayer.pack
  simp only [List.mem_filterMap]
  exact ⟨(p, b), hmem, by simp [habs]⟩

/-- Witness for C5 at a concrete layer with an absolute content key. -/
theorem imageLayer_pack_absolute_key_nonfatal_witness :
    ("Error when packing image: Path must be relative" ∈
      (ImageLayer.pack (fun _ => "h") false ⟨[], [("/a", [1])], []⟩).2) :=
  (imageLayer_pack_absolute_key_nonfatal (fun _ => "h") false
      ⟨[], [("/a", [1])], []⟩ "/a" [1] (by decide) (by decide)).2.2

/-- C9: the `slug` of an unpacked layer is recomputed from `checksum` —
equal to the digest of the space-joined checksum values — and the slug
recorded in the archive's `info` entry has no effect: unpacking the same
archive with any other stored slug yields the same layer. -/
theorem unpack_slug_recomputed
    (sha256 : Bytes → String) (ck : List (String × String))
    (c : List (String × Bytes)) (df : List String) (s1 s2 : String)
    (la : ImageLayer)
    (h : ImageLayer.unpack
        [(EntryName.infoBson, LayerDoc.info ck df s1),
         (EntryName.contentBson, LayerDoc.content c)] = .ok la) :
    ImageLayer.unpack
        [(EntryName.infoBson, LayerDoc.info ck df s2),
         (EntryName.contentBson, LayerDoc.content c)] = .ok la ∧
    la.slug sha256 =
      sha256 (utf8Bytes (String.intercalate " " (la.checksum.map Prod.snd))) :=
  ⟨h, rfl⟩

/-- Witness for C9: a stored slug `"stored"` is replaced by the recomputed
one when unpacking with stored slug `"other"` instead. -/
theorem unpack_slug_recomputed_witness :
    ImageLayer.unpack
        [(EntryName.infoBson, LayerDoc.info [("a", "x")] [] "other"),
         (EntryName.contentBson, LayerDoc.content [])] =
      .ok ⟨[("a", "x")], [], []⟩ :=
  (unpack_slug_recomputed (fun _ => "h") [("a", "x")] [] [] "stored" "other"
      ⟨[("a", "x")], [], []⟩ rfl).1

/-- C10: `get_file_list` on an `Image` with no layers fails with an index
error (and so does `__repr__`), while an `Image` whose layer list ends in
layer `l` yields exactly the key list of `l.checksum`. -/
theorem get_file_list_empty_and_last (s v : String) :
    (∃ e, Image.get_file_list ⟨s, v, []⟩ = .error e) ∧
    (∃ e, Image.reprStr ⟨s, v, []⟩ = .error e) ∧
    ∀ (img : Image) (ls : List ImageLayer) (l : ImageLayer),
      img.layers = ls ++ [l] →
      Image.get_file_list img = .ok (l.checksum.map Prod.fst) := by
  refine ⟨⟨_, rfl⟩, ⟨_, rfl⟩, ?_⟩
  intro img ls l h
  unfold Image.get_file_list
  rw [h, getLast?_append_single]

/-- Witness for C10 at a concrete single-layer image. -/
theorem get_file_list_empty_and_last_witness :
    Image.get_file_list ⟨"s", "v", [⟨[("a", "h")], [], []⟩]⟩ = .ok ["a"] :=
  (get_file_list_empty_and_last "s" "v").2.2 ⟨"s", "v", [⟨[("a", "h")], [], []⟩]⟩
    [] ⟨[("a", "h")], [], []⟩ rfl

/-- C1: for any `Image` produced by `build_image_from_directory`, packing it
with `Image.pack` and unpacking the result yields the image back — in
particular an image with identical `slug`, `version`, and per-layer
`checksum`, `content` and `deleted_files` — for both values of the
compression flag. -/
theorem image_roundtrip_of_build (globMatch : String → String → Bool)
    (sha256 : Bytes → String) (config : BuildConfig) (source : Fs) (img : Image)
    (hb : build_image_from_directory globMatch sha256 config source = .ok img)
    (compression : Bool) :
    Image.unpack (Image.pack sha256 compression img).1 = .ok img := by
  obtain ⟨layer, hgen, himg⟩ := build_ok_inv globMatch sha256 config source img hb
  obtain ⟨hlayer, hvc⟩ := generate_ok_inv sha256 _ layer hgen
  apply image_unpack_pack
  intro l hl
  subst himg
  simp only [Image.layers, List.mem_singleton] at hl
  subst hl
  rw [hlayer]
  exact hvc

/-- Witness for C1: a build with a copy step and a setenv step over a
one-file source tree, packed with compression and read back. -/
theorem image_roundtrip_of_build_witness :
    Image.unpack
      (Image.pack (fun _ => "h") true
        ⟨"demo", "1",
          [⟨[("a.txt", "h"), (".image.env", "h")],
            [("a.txt", [104]), (".image.env", utf8Bytes "\nFOO=bar")], []⟩]⟩).1 =
      .ok
        ⟨"demo", "1",
          [⟨[("a.txt", "h"), (".image.env", "h")],
            [("a.txt", [104]), (".image.env", utf8Bytes "\nFOO=bar")], []⟩]⟩ :=
  image_roundtrip_of_build (fun _ _ => true) (fun _ => "h")
    ⟨"demo", "1",
      [BuildStep.copy ⟨"*.txt", "ignored"⟩, BuildStep.setenv ⟨"FOO", "bar"⟩]⟩
    [("a.txt", [104])]
    ⟨"demo", "1",
      [⟨[("a.txt", "h"), (".image.env", "h")],
        [("a.txt", [104]), (".image.env", utf8Bytes "\nFOO=bar")], []⟩]⟩
    rfl true

/-- C4 counterexample: an image archive with a gap in the layer indices
(`layer_0` and `layer_2` present, `layer_1` missing).  The claim predicts
probing stops at the gap and the layer list is truncated to the single
layer 0; the code instead *skips* the missing index (`continue`) and keeps
layer 2, yielding two layers. -/
theorem image_unpack_gap_not_truncated :
    Image.unpack
      [(EntryName.infoBson, ImageDoc.info "s" "v"),
       (EntryName.layersDir, ImageDoc.dir),
       (EntryName.layerZip 0, ImageDoc.layerFile
          [(EntryName.infoBson, LayerDoc.info [("f0", "h0")] [] "x"),
           (EntryName.contentBson, LayerDoc.content [])]),
       (EntryName.layerZip 2, ImageDoc.layerFile
          [(EntryName.infoBson, LayerDoc.info [("f2", "h2")] [] "y"),
           (EntryName.contentBson, LayerDoc.content [])])] =
      .ok ⟨"s", "v", [⟨[("f0", "h0")], [], []⟩, ⟨[("f2", "h2")], [], []⟩]⟩ ∧
    [⟨[("f0", "h0")], [], []⟩, (⟨[("f2", "h2")], [], []⟩ : ImageLayer)].length = 2 :=
  ⟨rfl, rfl⟩

/-- C4 (amended): `Image.unpack` probes `layers/layer_{i}.zip` for every
`i` below the archive's entry count and skips a missing index rather than
stopping: a gapped archive keeps every layer whose index is below the entry
count, in index order (here layers 0 and 2 of a 4-entry archive), while a
layer whose index is at least the entry count is dropped (here index 5 in a
3-entry archive). -/
theorem image_unpack_skips_gap (s v x y : String)
    (ck0 ck2 : List (String × String)) (df0 df2 : List String) :
    Image.unpack
      [(EntryName.infoBson, ImageDoc.info s v),
       (EntryName.layersDir, ImageDoc.dir),
       (EntryName.layerZip 0, ImageDoc.layerFile
          [(EntryName.infoBson, LayerDoc.info ck0 df0 x),
           (EntryName.contentBson, LayerDoc.content [])]),
       (EntryName.layerZip 2, ImageDoc.layerFile
          [(EntryName.infoBson, LayerDoc.info ck2 df2 y),
           (EntryName.contentBson, LayerDoc.content [])])] =
      .ok ⟨s, v, [⟨ck0, [], df0⟩, ⟨ck2, [], df2⟩]⟩ ∧
    Image.unpack
      [(EntryName.infoBson, ImageDoc.info s v),
       (EntryName.layersDir, ImageDoc.dir),
       (EntryName.layerZip 5, ImageDoc.layerFile
          [(EntryName.infoBson, LayerDoc.info ck0 df0 x),
           (EntryName.contentBson, LayerDoc.content [])])] =
      .ok ⟨s, v, []⟩ :=
  ⟨rfl, rfl⟩

end MakiNet
